import Mathlib

/-!
Verification of the nearest-neighbor spatio-temporal join engine of the
ISRO-BAH-2025 repository (files `extract_aod.py`, `extract_merra.py`,
`merge_cpcb_with_daily.py`, `merge_data.py`).

Shallow embedding: pandas data frames become lists of rows, numpy arrays
become a shape plus a row-major flat list, hierarchical (HDF5) files become
an inductive tree.  Each Python function that the claims mention is
translated into a Lean definition of the same name (up to the leading
underscore that Lean style drops).
-/

namespace ISRO

/-! ### Generic first-minimum index (numpy `argmin` semantics)

`np.argmin` documents: in case of multiple occurrences of the minimum
values, the index corresponding to the first occurrence is returned. -/

/-- Index of the first occurrence of the minimum of a list
(`np.argmin` on the flattened array).  On the empty list, `0`. -/
def idxmin {α : Type} [LinearOrder α] (l : List α) : ℕ :=
  l.findIdx (fun x => decide (∀ y ∈ l, x ≤ y))

/-- Translation of `extract_merra._nearest_index`: index minimising the
per-axis absolute difference `|coord - value|` (the `np.nanargmin` of the
code; the embedding carries no NaNs, on which `nanargmin` and `argmin`
agree). -/
def nearest_index {α : Type} [LinearOrderedField α] (coord : List α) (value : α) : ℕ :=
  idxmin (coord.map (fun c => |c - value|))

/-! ### Feature Joiner (`merge_cpcb_with_daily.py` and `merge_data.py`)

A ground-truth (CPCB) row is a pair `(date, payload)`; an auxiliary daily
feature row carries a site name, a date and a feature payload.  Dates are
already truncated to calendar days, so a plain `ℕ` models them. -/

/-- One row of an auxiliary daily feature table (`aod` / `merra`). -/
structure AuxRow (β : Type) where
  site : String
  date : ℕ
  feat : β
deriving DecidableEq

/-- Translation of `DataFrame.drop_duplicates(subset=["date"])` with the
pandas default `keep="first"`: the first row of every date survives, in
order. -/
def dedupDateFirst {β : Type} : List (ℕ × β) → List (ℕ × β)
  | [] => []
  | r :: rs => r :: dedupDateFirst (rs.filter (fun s => s.1 ≠ r.1))
termination_by l => l.length
decreasing_by
  simp only [List.length_cons]
  exact Nat.lt_succ_of_le (List.length_filter_le _ _)

/-- Pandas left merge `df.merge(aux, on=["date"], how="left")`: every
left row is kept in order; a left row with no date match gets a null
(`none`) feature; a left row with matches is repeated for each matching
right row, in right order. -/
def leftMergeOnDate {α β : Type} (gt : List (ℕ × α)) (aux : List (ℕ × β)) :
    List (ℕ × α × Option β) :=
  gt.flatMap (fun g =>
    let ms := aux.filter (fun a => a.1 = g.1)
    if ms.isEmpty then [(g.1, g.2, none)] else ms.map (fun a => (g.1, g.2, some a.2)))

/-- Site filter of `merge_cpcb_with_daily.main`:
`aux[aux["site"].astype(str).str.strip() == str(site).strip()]`, followed by
the drop of the `site` column (rows become `(date, feat)` pairs). -/
def filterSiteRows {β : Type} (site : String) (aux : List (AuxRow β)) : List (ℕ × β) :=
  (aux.filter (fun r => r.site.trim = site.trim)).map (fun r => (r.date, r.feat))

/-- Per-CPCB-file body of `merge_cpcb_with_daily.main`: each auxiliary
table is filtered to the current site, de-duplicated on the date, and
left-joined on `date` only, sequentially. -/
def joinerMain {α β γ : Type} (gt : List (ℕ × α)) (aod : List (AuxRow β))
    (merra : List (AuxRow γ)) (site : String) :
    List (ℕ × (α × Option β) × Option γ) :=
  let aodS := dedupDateFirst (filterSiteRows site aod)
  let merraS := dedupDateFirst (filterSiteRows site merra)
  leftMergeOnDate (leftMergeOnDate gt aodS) merraS

/-- Pandas inner merge on `["site", "date"]`, the join of
`merge_data.py` lines 202-203 (`how="inner"`): a left row with no match
in the right table is dropped. -/
def innerMergeOnSiteDate {α β : Type} (gt : List (String × ℕ × α))
    (feat : List (String × ℕ × β)) : List (String × ℕ × α × β) :=
  gt.flatMap (fun g =>
    (feat.filter (fun f => f.1 = g.1 ∧ f.2.1 = g.2.1)).map
      (fun f => (g.1, g.2.1, g.2.2, f.2.2)))

/-- Date-column choice of `merge_cpcb_with_daily.main`: prefer
`period.datetimeTo.utc`, fall back to `period.datetimeFrom.utc`, else skip
the table (`none`). -/
def chooseDateColDaily (cols : List String) : Option String :=
  if "period.datetimeTo.utc" ∈ cols then some "period.datetimeTo.utc"
  else if "period.datetimeFrom.utc" ∈ cols then some "period.datetimeFrom.utc"
  else none

/-- Date-column choice of `merge_data.load_cpcb`: prefer
`period.datetimeFrom.local`, fall back to `period.datetimeTo.local`, else
raise (`none`). -/
def chooseDateColLoadCpcb (cols : List String) : Option String :=
  if "period.datetimeFrom.local" ∈ cols then some "period.datetimeFrom.local"
  else if "period.datetimeTo.local" ∈ cols then some "period.datetimeTo.local"
  else none

/-- Modelled from the spec: the claimed fixed fallback order, preferring
the period-end column and falling back to the period-start column. -/
def claimPreferEnd (endCol startCol : String) (cols : List String) : Option String :=
  if endCol ∈ cols then some endCol
  else if startCol ∈ cols then some startCol
  else none

/-- Modelled from the spec: de-duplication to one row per date keeping the
last occurrence, in original row order (the claimed tie-break of C5). -/
def dedupDateLast {β : Type} (l : List (ℕ × β)) : List (ℕ × β) :=
  (dedupDateFirst l.reverse).reverse

/-- Modelled from the spec: de-duplication keeping the first occurrence of
each date, phrased as a left fold that appends a row only when its date is
new. -/
def specDedupFirst {β : Type} (l : List (ℕ × β)) : List (ℕ × β) :=
  l.foldl (fun acc r => if acc.any (fun s => s.1 = r.1) then acc else acc ++ [r]) []

/-- Modelled from the spec: the joiner with the claimed keep-last
tie-break in place of the code's `drop_duplicates` default. -/
def claimJoinerLast {α β γ : Type} (gt : List (ℕ × α)) (aod : List (AuxRow β))
    (merra : List (AuxRow γ)) (site : String) :
    List (ℕ × (α × Option β) × Option γ) :=
  let aodS := dedupDateLast (filterSiteRows site aod)
  let merraS := dedupDateLast (filterSiteRows site merra)
  leftMergeOnDate (leftMergeOnDate gt aodS) merraS

/-! ### Daily Aggregator (`extract_aod.py` line 137, `extract_merra.py`)

`df.groupby(["site", "date"], as_index=False).mean()` with the pandas
default `sort=True`: one output row per distinct `(site, date)` key, in
ascending key order, carrying the arithmetic mean of the values of that
key.  The site type is any linear order (the scripts use strings, which
pandas sorts lexicographically). -/

/-- Group key of a sample row `(site, date, value)`. -/
def rowKey {σ : Type} (r : σ × ℕ × ℚ) : σ × ℕ := (r.1, r.2.1)

/-- Lexicographic comparison on `(site, date)` keys, the pandas group-key
sort order. -/
def keyLe {σ : Type} [LinearOrder σ] (a b : σ × ℕ) : Prop :=
  a.1 < b.1 ∨ (a.1 = b.1 ∧ a.2 ≤ b.2)

instance {σ : Type} [LinearOrder σ] : DecidableRel (keyLe (σ := σ)) := fun a b => by
  unfold keyLe
  infer_instance

instance keyLe_isTrans {σ : Type} [LinearOrder σ] : IsTrans (σ × ℕ) keyLe := by
  constructor
  rintro a b c (h1 | ⟨h1, h1d⟩) (h2 | ⟨h2, h2d⟩)
  · exact Or.inl (h1.trans h2)
  · exact Or.inl (h2 ▸ h1)
  · exact Or.inl (h1 ▸ h2)
  · exact Or.inr ⟨h1.trans h2, h1d.trans h2d⟩

instance keyLe_isTotal {σ : Type} [LinearOrder σ] : IsTotal (σ × ℕ) keyLe := by
  constructor
  intro a b
  rcases lt_trichotomy a.1 b.1 with h | h | h
  · exact Or.inl (Or.inl h)
  · rcases le_total a.2 b.2 with hd | hd
    · exact Or.inl (Or.inr ⟨h, hd⟩)
    · exact Or.inr (Or.inr ⟨h.symm, hd⟩)
  · exact Or.inr (Or.inl h)

instance keyLe_isAntisymm {σ : Type} [LinearOrder σ] : IsAntisymm (σ × ℕ) keyLe := by
  constructor
  rintro a b (h1 | ⟨h1, h1d⟩) (h2 | ⟨h2, h2d⟩)
  · exact absurd h2 (lt_asymm h1)
  · exact absurd h1 (h2 ▸ lt_irrefl _)
  · exact absurd h2 (h1 ▸ lt_irrefl _)
  · exact Prod.ext h1 (le_antisymm h1d h2d)

/-- Translation of `df.groupby(["site", "date"], as_index=False).mean()`:
the distinct keys in ascending order, each with the mean of its values. -/
def aggDaily {σ : Type} [LinearOrder σ] (t : List (σ × ℕ × ℚ)) : List (σ × ℕ × ℚ) :=
  let keys := List.insertionSort keyLe (t.map rowKey).dedup
  keys.map (fun k =>
    let vs := (t.filter (fun r => rowKey r = k)).map (fun r => r.2.2)
    (k.1, k.2, vs.sum / (vs.length : ℚ)))

/-! ### MERRA extraction plan (`extract_merra.extract_daily_from_merra_folder`)

A MERRA file is its 1D coordinate axes, the names of the variables it
carries, and an abstract read function giving the series value of a
variable at a grid index.  Coordinates are rationals (the resolver
`_nearest_index` is pure arithmetic). -/

/-- One MERRA `.nc4` file, as far as the extraction logic inspects it. -/
structure MFile where
  lat : List ℚ
  lon : List ℚ
  vars : List String
  val : String → ℕ → ℕ → ℚ

/-- Variables to load, determined once from the first file
(`avail_load_vars`): the requested variables, plus the `RH2M` dependencies
when `RH2M` is requested but absent, restricted to those present in the
first file. -/
def merraAvail (first : MFile) (var_names : List String) : List String :=
  let need_rh := "RH2M" ∈ var_names ∧ "RH2M" ∉ first.vars
  let needed := var_names ++ (if need_rh then
    (["QV2M", "T2M", "PS"].filter (fun v => v ∉ var_names)) else [])
  needed.filter (fun v => v ∈ first.vars)

/-- Per-site nearest grid indices, computed once from the first file. -/
def merraSiteIdx (first : MFile) (sites : List (String × ℚ × ℚ)) :
    List (String × ℕ × ℕ) :=
  sites.map (fun s => (s.1, nearest_index first.lat s.2.1, nearest_index first.lon s.2.2))

/-- Loop body of `extract_daily_from_merra_folder`: a file carrying none
of the loadable variables is skipped (`continue`); otherwise every site
contributes the values of the loadable variables present in the file, read
at the site's precomputed grid index. -/
def merraProcessFile (avail : List String) (sidx : List (String × ℕ × ℕ))
    (f : MFile) : List (String × String × ℚ) :=
  let small := avail.filter (fun v => v ∈ f.vars)
  if small.isEmpty then []
  else sidx.flatMap (fun s => small.map (fun v => (s.1, v, f.val v s.2.1 s.2.2)))

/-- Translation of `extract_daily_from_merra_folder` up to (and not
including) the daily resampling: `none` models a raised exception (no
files, no requested variable present in the first file, or nothing
extracted at all). -/
def extractMerra (files : List MFile) (var_names : List String)
    (sites : List (String × ℚ × ℚ)) : Option (List (String × String × ℚ)) :=
  match files with
  | [] => none
  | first :: rest =>
    if var_names ≠ [] ∧ var_names.all (fun v => v ∉ first.vars) then none
    else
      let avail := merraAvail first var_names
      let sidx := merraSiteIdx first sites
      let rows := (first :: rest).flatMap (merraProcessFile avail sidx)
      if rows.isEmpty then none else some rows

/-! ### Value extraction from a gridded array (`extract_aod.py`)

A numpy array is its shape plus the row-major flat data.  `np.squeeze`
removes every singleton dimension and leaves the row-major data unchanged;
`a[0, ...]` on a leading singleton dimension likewise. -/

/-- A numpy array: shape and row-major flat data. -/
structure NpArr where
  shape : List ℕ
  flat : List ℝ

/-- Translation of `np.squeeze`: all singleton dimensions dropped. -/
def squeeze (a : NpArr) : NpArr := ⟨a.shape.filter (fun n => n ≠ 1), a.flat⟩

/-- Translation of `arr[0, ...]` for a leading singleton dimension. -/
def dropLead (a : NpArr) : NpArr := ⟨a.shape.tail, a.flat⟩

/-- Translation of `extract_aod.pick_value` (closure over `LAT` of shape
`(latShape.1, latShape.2)`): read `arr[ii, jj]` when the shape matches the
coordinate grid, `arr[jj, ii]` when it matches the transpose, otherwise
raise (`none`). -/
def pick_value (latShape : ℕ × ℕ) (ii jj : ℕ) (arr : NpArr) : Option ℝ :=
  if arr.shape = [latShape.1, latShape.2] then
    some (arr.flat.getD (ii * latShape.2 + jj) 0)
  else if arr.shape = [latShape.2, latShape.1] then
    some (arr.flat.getD (jj * latShape.1 + ii) 0)
  else none

/-- Translation of the `try/except` at `extract_aod.py` lines 126-133:
`pick_value` on the squeezed array, retried on the array with its first
dimension dropped when the raw array is 3-D with a leading singleton. -/
def extractVal (latShape : ℕ × ℕ) (ii jj : ℕ) (raw : NpArr) : Option ℝ :=
  match pick_value latShape ii jj (squeeze raw) with
  | some v => some v
  | none =>
    if raw.shape.length = 3 ∧ raw.shape.headD 0 = 1 then
      pick_value latShape ii jj (dropLead raw)
    else none

/-- Modelled from the spec (claim C3 as stated): the shape tests are
applied to the data array itself; when neither matches and the array has a
leading singleton dimension, the read is retried once after dropping that
dimension. -/
def claimExtract (latShape : ℕ × ℕ) (ii jj : ℕ) (raw : NpArr) : Option ℝ :=
  match pick_value latShape ii jj raw with
  | some v => some v
  | none =>
    if raw.shape.headD 0 = 1 then pick_value latShape ii jj (dropLead raw)
    else none

/-- Modelled from the spec, as amended: the squeezed array is compared
against the grid shape (read at `(row, col)`) and its transpose (read at
`(col, row)`); failing both, the read is retried on the raw array with its
first dimension dropped provided the raw array is 3-D with a leading
singleton; otherwise the extraction fails. -/
def amendedExtract (latShape : ℕ × ℕ) (ii jj : ℕ) (raw : NpArr) : Option ℝ :=
  if (squeeze raw).shape = [latShape.1, latShape.2] then
    some ((squeeze raw).flat.getD (ii * latShape.2 + jj) 0)
  else if (squeeze raw).shape = [latShape.2, latShape.1] then
    some ((squeeze raw).flat.getD (jj * latShape.1 + ii) 0)
  else if raw.shape.length = 3 ∧ raw.shape.headD 0 = 1 then
    if (dropLead raw).shape = [latShape.1, latShape.2] then
      some ((dropLead raw).flat.getD (ii * latShape.2 + jj) 0)
    else if (dropLead raw).shape = [latShape.2, latShape.1] then
      some ((dropLead raw).flat.getD (jj * latShape.1 + ii) 0)
    else none
  else none

/-! ### Nearest-Point Resolver (`extract_aod.haversine` and callers) -/

/-- Translation of `np.radians`. -/
noncomputable def radians (x : ℝ) : ℝ := x * Real.pi / 180

/-- The intermediate `a` of `extract_aod.haversine`:
`sin(dlat/2)² + cos(lat1)·cos(lat2)·sin(dlon/2)²` in radians. -/
noncomputable def havA (lat1 lon1 lat2 lon2 : ℝ) : ℝ :=
  Real.sin (radians (lat2 - lat1) / 2) ^ 2 +
    Real.cos (radians lat1) * Real.cos (radians lat2) *
      Real.sin (radians (lon2 - lon1) / 2) ^ 2

/-- Translation of `extract_aod.haversine` (Earth radius 6371 km):
`2·R·arcsin(√a)`. -/
noncomputable def haversine (lat1 lon1 lat2 lon2 : ℝ) : ℝ :=
  2 * 6371 * Real.arcsin (Real.sqrt (havA lat1 lon1 lat2 lon2))

/-- Row-major flattening of the elementwise haversine distance of a site
to the `meshgrid(lat, lon, indexing="ij")` coordinate grid. -/
noncomputable def distFlat (slat slon : ℝ) (lat lon : List ℝ) : List ℝ :=
  (List.range (lat.length * lon.length)).map
    (fun k => haversine slat slon (lat.getD (k / lon.length) 0) (lon.getD (k % lon.length) 0))

/-- Translation of `np.unravel_index(np.argmin(dist), dist.shape)` at
`extract_aod.py` line 125: the 2-D index of the nearest grid cell. -/
noncomputable def nearestIndex2D (slat slon : ℝ) (lat lon : List ℝ) : ℕ × ℕ :=
  let k := idxmin (distFlat slat slon lat lon)
  (k / lon.length, k % lon.length)

/-- Modelled from the spec: brute-force linear scan, in row-major order,
over the haversine distance from the site to every grid cell, selecting
the first cell of minimum distance. -/
noncomputable def bruteForceIndex (slat slon : ℝ) (lat lon : List ℝ) : ℕ × ℕ :=
  let cells := (List.range lat.length).flatMap
    (fun i => (List.range lon.length).map (fun j => (i, j)))
  (cells.find? (fun ij => decide (∀ kl ∈ cells,
      haversine slat slon (lat.getD ij.1 0) (lon.getD ij.2 0) ≤
      haversine slat slon (lat.getD kl.1 0) (lon.getD kl.2 0)))).getD (0, 0)

/-! ### Relative-humidity synthesis (`extract_merra._compute_rh2m`) -/

/-- Translation of `extract_merra._compute_rh2m` on one row with `QV2M`,
`T2M` and `PS` all present; the first assignment to `es` is immediately
shadowed by the corrected one, exactly as in the source. -/
noncomputable def compute_rh2m (q T p : ℝ) : ℝ :=
  let e := q * p / (0.622 + 0.378 * q)
  let Tc := T - 273.15
  let es := 611.2 * Real.exp (17.67 * Tc / (Tc + 243.5)) * 10
  let es := 6.112 * 100.0 * Real.exp (17.67 * Tc / (Tc + 243.5))
  min (max (100.0 * (e / es)) 0) 100

/-- Modelled from the spec: `e = Q·P/(0.622 + 0.378·Q)`,
`es = 611.2·exp(17.67·(T−273.15)/((T−273.15)+243.5))`,
`RH = clamp(100·e/es, 0, 100)`. -/
noncomputable def rhSpec (q T p : ℝ) : ℝ :=
  let e := q * p / (0.622 + 0.378 * q)
  let es := 611.2 * Real.exp (17.67 * (T - 273.15) / ((T - 273.15) + 243.5))
  min (max (100 * e / es) 0) 100

/-! ### Grid Locator (`extract_aod._find_dataset`)

An HDF5 object is either a dataset (it has a shape and a dtype) or a
group of named children.  `_find_dataset` runs a stack-based traversal:
it pops the most recently pushed group, scans its children in key order,
returns the path of the first child dataset whose name matches, and pushes
child groups for later processing. -/

/-- An HDF5 node: a dataset leaf or a group of named children. -/
inductive HNode where
  | ds : HNode
  | grp : List (String × HNode) → HNode

mutual

/-- Size of a node, the termination measure of the traversal. -/
def nodeSize : HNode → ℕ
  | .ds => 1
  | .grp cs => 1 + childrenSize cs

/-- Total size of a list of named children. -/
def childrenSize : List (String × HNode) → ℕ
  | [] => 0
  | (_, c) :: cs => nodeSize c + childrenSize cs

end

/-- Total size of a traversal stack. -/
def stackSize : List (String × HNode) → ℕ
  | [] => 0
  | (_, c) :: cs => nodeSize c + stackSize cs

/-- Helper for Python substring search: does the text start with the
pattern? -/
def ledBy : List Char → List Char → Bool
  | [], _ => true
  | _ :: _, [] => false
  | p :: ps, c :: cs => p = c && ledBy ps cs

/-- Translation of Python `pat in s` on strings: substring containment. -/
def hasSub : List Char → List Char → Bool
  | [], pat => pat.isEmpty
  | c :: cs, pat => ledBy pat (c :: cs) || hasSub cs pat

/-- The match test of `_find_dataset`: the key equals one of the name
hints case-insensitively, or the lower-cased key contains one of the
substring hints (the hint itself is not lower-cased, as in the source). -/
def nameMatches (name_hints contains : List String) (k : String) : Bool :=
  name_hints.any (fun h => h.toLower = k.toLower) ||
  contains.any (fun c => hasSub k.toLower.data c.data)

/-- Translation of `path.rstrip("/")`. -/
def rstripSlash (s : String) : String := s.dropRightWhile (fun c => c = '/')

/-- One pass of the `for k in obj.keys()` body: scan the children in key
order; return the path of the first matching dataset child, or the
child groups to push (most recently pushed first, matching Python's
`list.append` / `list.pop` discipline). -/
def scanChildren (hints subs : List String) (path : String) :
    List (String × HNode) → Option String × List (String × HNode)
  | [] => (none, [])
  | (k, c) :: cs =>
    let cpath := rstripSlash path ++ "/" ++ k
    match c with
    | .ds =>
      if nameMatches hints subs k then (some cpath, [])
      else scanChildren hints subs path cs
    | .grp ch =>
      let r := scanChildren hints subs path cs
      (r.1, r.2 ++ [(cpath, HNode.grp ch)])

theorem stackSize_append : ∀ a b : List (String × HNode),
    stackSize (a ++ b) = stackSize a + stackSize b
  | [], _ => by simp [stackSize]
  | (k, c) :: cs, b => by
    have ih := stackSize_append cs b
    simp only [List.cons_append, stackSize, List.append_eq] at ih ⊢
    omega

theorem scan_pushed_size (hints subs : List String) (p : String) :
    ∀ cs : List (String × HNode),
      stackSize (scanChildren hints subs p cs).2 ≤ childrenSize cs
  | [] => by simp [scanChildren, stackSize, childrenSize]
  | (k, c) :: cs => by
    cases c with
    | ds =>
      simp only [scanChildren, childrenSize]
      split
      · simp [stackSize]
      · exact le_trans (scan_pushed_size hints subs p cs) (Nat.le_add_left _ _)
    | grp ch =>
      simp only [scanChildren, childrenSize, stackSize_append]
      have := scan_pushed_size hints subs p cs
      simp only [stackSize, nodeSize]
      omega

/-- The `while stack:` loop of `_find_dataset`. -/
def findLoop (hints subs : List String) : List (String × HNode) → Option String
  | [] => none
  | (_, .ds) :: rest => findLoop hints subs rest
  | (p, .grp cs) :: rest =>
    match h : scanChildren hints subs p cs with
    | (some out, _) => some out
    | (none, pushed) => findLoop hints subs (pushed ++ rest)
termination_by st => stackSize st
decreasing_by
  · simp only [stackSize, nodeSize]
    omega
  · have hsz : stackSize pushed ≤ childrenSize cs := by
      have hs := scan_pushed_size hints subs p cs
      rw [h] at hs
      exact hs
    simp only [stackSize_append, stackSize, nodeSize]
    omega

/-- Translation of `extract_aod._find_dataset`. -/
def find_dataset (root : HNode) (hints subs : List String) : Option String :=
  findLoop hints subs [("/", root)]

/-- The `(key, path)` pairs of the dataset children of a group, in key
order. -/
def childLeaves (path : String) : List (String × HNode) → List (String × String)
  | [] => []
  | (k, .ds) :: cs => (k, rstripSlash path ++ "/" ++ k) :: childLeaves path cs
  | (_, .grp _) :: cs => childLeaves path cs

/-- The `(path, node)` pairs of the group children of a group, in key
order. -/
def childGroups (path : String) : List (String × HNode) → List (String × HNode)
  | [] => []
  | (_, .ds) :: cs => childGroups path cs
  | (k, .grp ch) :: cs =>
    (rstripSlash path ++ "/" ++ k, HNode.grp ch) :: childGroups path cs

/-- The `(key, path)` pairs of every dataset leaf reachable from a stack,
in the traversal order of `findLoop`: all dataset children of the top
group in key order, then the subgroups most-recently-pushed first. -/
def stackOrder : List (String × HNode) → List (String × String)
  | [] => []
  | (_, .ds) :: rest => stackOrder rest
  | (p, .grp cs) :: rest =>
    childLeaves p cs ++ stackOrder ((childGroups p cs).reverse ++ rest)
termination_by st => stackSize st
decreasing_by
  · simp only [stackSize, nodeSize]
    omega
  · have hsz : stackSize (childGroups p cs) ≤ childrenSize cs := by
      clear rest
      induction cs with
      | nil => simp [childGroups, stackSize, childrenSize]
      | cons kc cs ih =>
        obtain ⟨k, c⟩ := kc
        cases c with
        | ds =>
          simp only [childGroups, childrenSize]
          exact le_trans ih (Nat.le_add_left _ _)
        | grp ch =>
          simp only [childGroups, childrenSize, stackSize, nodeSize] at ih ⊢
          omega
    have hrev : stackSize (childGroups p cs).reverse = stackSize (childGroups p cs) := by
      clear hsz rest
      induction (childGroups p cs) with
      | nil => simp
      | cons kc l ih =>
        simp only [List.reverse_cons, stackSize_append, stackSize, ih]
        cases kc
        simp [stackSize]
        omega
    simp only [stackSize_append, stackSize, nodeSize, hrev]
    omega

/-- The dataset leaves of a whole file in the order `_find_dataset`
encounters them. -/
def dfsOrder (root : HNode) : List (String × String) := stackOrder [("/", root)]

/-- Modelled from the spec, as amended for C5: the joiner with the
de-duplication phrased as "keep a row only when its date is new",
i.e. the first occurrence of every date wins. -/
def specJoinerFirst {α β γ : Type} (gt : List (ℕ × α)) (aod : List (AuxRow β))
    (merra : List (AuxRow γ)) (site : String) :
    List (ℕ × (α × Option β) × Option γ) :=
  let aodS := specDedupFirst (filterSiteRows site aod)
  let merraS := specDedupFirst (filterSiteRows site merra)
  leftMergeOnDate (leftMergeOnDate gt aodS) merraS

/-! ## Theorems -/

theorem dedupDateFirst_subset {β : Type} :
    ∀ (l : List (ℕ × β)) (x : ℕ × β), x ∈ dedupDateFirst l → x ∈ l
  | [], x => by simp [dedupDateFirst]
  | r :: rs, x => by
    simp only [dedupDateFirst, List.mem_cons]
    rintro (rfl | hx)
    · exact Or.inl rfl
    · exact Or.inr (List.mem_of_mem_filter (dedupDateFirst_subset _ x hx))
termination_by l => l.length
decreasing_by
  simp only [List.length_cons]
  exact Nat.lt_succ_of_le (List.length_filter_le _ _)

theorem dedupDateFirst_keys_nodup {β : Type} :
    ∀ l : List (ℕ × β), ((dedupDateFirst l).map Prod.fst).Nodup
  | [] => by simp [dedupDateFirst]
  | r :: rs => by
    simp only [dedupDateFirst, List.map_cons, List.nodup_cons]
    refine ⟨?_, dedupDateFirst_keys_nodup _⟩
    intro hmem
    obtain ⟨x, hx, hfst⟩ := List.mem_map.1 hmem
    have hxf := dedupDateFirst_subset _ x hx
    have := List.of_mem_filter hxf
    simp only [decide_eq_true_eq] at this
    exact this hfst
termination_by l => l.length
decreasing_by
  all_goals
    simp only [List.length_cons]
    exact Nat.lt_succ_of_le (List.length_filter_le _ _)

theorem filter_eq_toList_find?_of_nodup_keys {β : Type} :
    ∀ (aux : List (ℕ × β)), ((aux.map Prod.fst).Nodup) → ∀ d : ℕ,
      aux.filter (fun a => a.1 = d) = (aux.find? (fun a => a.1 = d)).toList
  | [], _, d => by simp
  | a :: rest, h, d => by
    simp only [List.map_cons, List.nodup_cons] at h
    by_cases ha : a.1 = d
    · have hrest : rest.filter (fun a => a.1 = d) = [] := by
        rw [List.filter_eq_nil_iff]
        intro x hx
        simp only [decide_eq_true_eq]
        intro hxd
        exact h.1 (List.mem_map.2 ⟨x, hx, by rw [hxd, ha]⟩)
      simp [List.filter_cons, List.find?_cons, ha, hrest]
    · simp only [List.filter_cons, List.find?_cons, ha, decide_eq_true_eq, if_false,
        decide_eq_false_iff_not, not_false_eq_true]
      simpa [ha] using filter_eq_toList_find?_of_nodup_keys rest h.2 d

theorem leftMergeOnDate_eq_map {α β : Type} (gt : List (ℕ × α)) (aux : List (ℕ × β))
    (h : (aux.map Prod.fst).Nodup) :
    leftMergeOnDate gt aux =
      gt.map (fun g => (g.1, g.2, (aux.find? (fun a => a.1 = g.1)).map Prod.snd)) := by
  unfold leftMergeOnDate
  induction gt with
  | nil => simp
  | cons g rest ih =>
    simp only [List.flatMap_cons, List.map_cons, ih, List.append_cancel_right_eq]
    rw [filter_eq_toList_find?_of_nodup_keys aux h g.1]
    cases hf : aux.find? (fun a => a.1 = g.1) with
    | none => simp
    | some a => simp

/-- C2 counterexample: the `merge_data.py` join (lines 202-203) is an
inner join; with a one-row ground-truth table and an empty auxiliary
table, the merged output has 0 rows, not one row per ground-truth row. -/
theorem c2_counterexample :
    (innerMergeOnSiteDate [("A", 1, (0 : ℕ))] ([] : List (String × ℕ × ℕ))).length = 0 ∧
    ([(("A" : String), 1, (0 : ℕ))]).length = 1 := by
  constructor <;> rfl

/-- C2, as amended: the `merge_cpcb_with_daily.py` joiner produces exactly
one output row per ground-truth row, in order, each carrying the
`find?`-lookup of its date in the site-filtered de-duplicated auxiliary
tables (so a date absent from an auxiliary table yields a `none` feature,
never row loss); the `merge_data.py` variant instead inner-joins and can
drop rows. -/
theorem c2_amended_left_join_preserves_rows (α β γ : Type) (gt : List (ℕ × α))
    (aod : List (AuxRow β)) (merra : List (AuxRow γ)) (site : String) :
    (joinerMain gt aod merra site).length = gt.length ∧
    joinerMain gt aod merra site = gt.map (fun g =>
      (g.1,
       (g.2, ((dedupDateFirst (filterSiteRows site aod)).find?
          (fun a => a.1 = g.1)).map Prod.snd),
       ((dedupDateFirst (filterSiteRows site merra)).find?
          (fun a => a.1 = g.1)).map Prod.snd)) := by
  have h1 := dedupDateFirst_keys_nodup (filterSiteRows site aod)
  have h2 := dedupDateFirst_keys_nodup (filterSiteRows site merra)
  have he : joinerMain gt aod merra site = gt.map (fun g =>
      (g.1,
       (g.2, ((dedupDateFirst (filterSiteRows site aod)).find?
          (fun a => a.1 = g.1)).map Prod.snd),
       ((dedupDateFirst (filterSiteRows site merra)).find?
          (fun a => a.1 = g.1)).map Prod.snd)) := by
    unfold joinerMain
    rw [leftMergeOnDate_eq_map _ _ h2, leftMergeOnDate_eq_map _ _ h1, List.map_map]
    rfl
  exact ⟨by rw [he, List.length_map], he⟩

theorem specDedupFirst_go {β : Type} :
    ∀ (l acc : List (ℕ × β)),
      List.foldl (fun acc r => if acc.any (fun s => s.1 = r.1) then acc else acc ++ [r]) acc l
        = acc ++ dedupDateFirst (l.filter (fun r => !(acc.any (fun s => s.1 = r.1))))
  | [], acc => by simp [dedupDateFirst]
  | r :: rs, acc => by
    simp only [List.foldl_cons]
    by_cases hmem : acc.any (fun s => s.1 = r.1)
    · rw [if_pos hmem, specDedupFirst_go rs acc]
      simp [List.filter_cons, hmem]
    · rw [if_neg hmem, specDedupFirst_go rs (acc ++ [r])]
      have hra : (acc.any fun s => decide (s.1 = r.1)) = false :=
        Bool.eq_false_iff.mpr hmem
      have hfil : rs.filter (fun s => !((acc ++ [r]).any (fun t => t.1 = s.1)))
          = (rs.filter (fun s => !(acc.any (fun t => t.1 = s.1)))).filter
              (fun s => decide (s.1 ≠ r.1)) := by
        rw [List.filter_filter]
        apply List.filter_congr
        intro s _
        simp only [List.any_append, List.any_cons, List.any_nil, Bool.or_false,
          Bool.not_or]
        cases hacc : acc.any (fun t => t.1 = s.1)
        · by_cases hsr : s.1 = r.1
          · have hd : decide (r.1 = s.1) = true := decide_eq_true hsr.symm
            have hd2 : decide (s.1 ≠ r.1) = false := by
              simp [hsr]
            simp [hd, hd2]
          · have hd : decide (r.1 = s.1) = false :=
              decide_eq_false (fun h => hsr h.symm)
            have hd2 : decide (s.1 ≠ r.1) = true := decide_eq_true hsr
            simp [hd, hd2]
        · simp
      simp only [List.filter_cons, hra, Bool.not_false, if_pos, dedupDateFirst, hfil]
      simp [List.append_assoc]

theorem specDedupFirst_eq_dedupDateFirst {β : Type} (l : List (ℕ × β)) :
    specDedupFirst l = dedupDateFirst l := by
  unfold specDedupFirst
  rw [specDedupFirst_go l []]
  simp

/-- C5 counterexample: with two auxiliary rows sharing a date, the code's
`drop_duplicates(subset=["date"])` keeps the first occurrence (feature 1),
while the claimed keep-last tie-break would keep the second (feature 2). -/
theorem c5_counterexample :
    joinerMain [((5 : ℕ), (0 : ℕ))] [⟨"A", 5, (1 : ℕ)⟩, ⟨"A", 5, 2⟩]
        ([] : List (AuxRow ℕ)) "A" = [(5, (0, some 1), none)] ∧
    claimJoinerLast [((5 : ℕ), (0 : ℕ))] [⟨"A", 5, (1 : ℕ)⟩, ⟨"A", 5, 2⟩]
        ([] : List (AuxRow ℕ)) "A" = [(5, (0, some 2), none)] := by
  constructor <;>
    simp [joinerMain, claimJoinerLast, filterSiteRows, dedupDateLast, dedupDateFirst,
      leftMergeOnDate, List.filter_cons]

/-- C5, as amended: the auxiliary tables are filtered to the current site,
de-duplicated to one row per date keeping the *first* occurrence, and
left-joined onto the ground-truth table by date only. -/
theorem c5_amended_keep_first (α β γ : Type) (gt : List (ℕ × α)) (aod : List (AuxRow β))
    (merra : List (AuxRow γ)) (site : String) :
    joinerMain gt aod merra site = specJoinerFirst gt aod merra site := by
  unfold joinerMain specJoinerFirst
  rw [specDedupFirst_eq_dedupDateFirst, specDedupFirst_eq_dedupDateFirst]

/-- C4 counterexample: on a table carrying both local period columns,
`merge_data.load_cpcb` picks `period.datetimeFrom.local` (the period
*start*), while the claimed fallback order picks the period *end*
column. -/
theorem c4_counterexample :
    chooseDateColLoadCpcb ["period.datetimeFrom.local", "period.datetimeTo.local"]
      = some "period.datetimeFrom.local" ∧
    claimPreferEnd "period.datetimeTo.local" "period.datetimeFrom.local"
        ["period.datetimeFrom.local", "period.datetimeTo.local"]
      = some "period.datetimeTo.local" := by
  constructor <;> rfl

/-- C4, as amended: `merge_cpcb_with_daily.main` follows the claimed
end-then-start fallback (on the `.utc` columns) and skips the table when
neither exists, while `merge_data.load_cpcb` uses the opposite
start-then-end fallback on the `.local` columns. -/
theorem c4_amended_date_column_fallback (cols : List String) :
    chooseDateColDaily cols
      = claimPreferEnd "period.datetimeTo.utc" "period.datetimeFrom.utc" cols ∧
    chooseDateColLoadCpcb cols
      = claimPreferEnd "period.datetimeFrom.local" "period.datetimeTo.local" cols ∧
    (chooseDateColDaily cols = none ↔
      "period.datetimeTo.utc" ∉ cols ∧ "period.datetimeFrom.utc" ∉ cols) := by
  refine ⟨rfl, rfl, ?_⟩
  by_cases h1 : "period.datetimeTo.utc" ∈ cols <;>
    by_cases h2 : "period.datetimeFrom.utc" ∈ cols <;>
    simp [chooseDateColDaily, h1, h2]

/-- C7: the synthesized relative humidity equals
`clamp(100·e/es, 0, 100)` with `e = Q·P/(0.622 + 0.378·Q)` and
`es = 611.2·exp(17.67·(T−273.15)/((T−273.15)+243.5))` — the dead first
assignment to `es` in the source is shadowed by the corrected one. -/
theorem c7_rh_synthesis_formula (q T p : ℝ) : compute_rh2m q T p = rhSpec q T p := by
  unfold compute_rh2m rhSpec
  have h : (6.112 * 100.0 : ℝ) = 611.2 := by norm_num
  rw [h]
  ring_nf

/-- C3 counterexample: a raw array of shape `(2, 1, 3)` against a
coordinate grid of shape `(2, 3)`: the code squeezes away the middle
singleton dimension and reads a value, while the claimed rule (shape
tests on the raw array, retry only for a leading singleton) fails. -/
theorem c3_counterexample :
    extractVal (2, 3) 1 1 ⟨[2, 1, 3], [0, 1, 2, 3, 4, 5]⟩ = some 4 ∧
    claimExtract (2, 3) 1 1 ⟨[2, 1, 3], [0, 1, 2, 3, 4, 5]⟩ = none := by
  constructor <;> rfl

/-- C3, as amended: the shape tests are applied to the *squeezed* array
(all singleton dimensions dropped); on failure the read is retried on the
raw array with its first dimension dropped provided the raw array is 3-D
with a leading singleton dimension; otherwise the extraction fails. -/
theorem c3_amended_shape_dispatch (n0 n1 ii jj : ℕ) (raw : NpArr) :
    extractVal (n0, n1) ii jj raw = amendedExtract (n0, n1) ii jj raw := by
  by_cases hA : (squeeze raw).shape = [n0, n1]
  · simp [extractVal, amendedExtract, pick_value, hA]
  · by_cases hB : (squeeze raw).shape = [n1, n0]
    · simp only [extractVal, amendedExtract, pick_value, hA, hB, if_false, if_true,
        eq_self_iff_true]
      split
      · rename_i x v heq
        exact heq.symm
      · rename_i x heq
        split at heq <;> exact Option.noConfusion heq
    · simp [extractVal, amendedExtract, pick_value, hA, hB]

theorem filter_key_eq_of_nodup_keys {σ β : Type} [DecidableEq σ] (f : β → σ) :
    ∀ (l : List β), ((l.map f).Nodup) → ∀ s ∈ l, l.filter (fun r => f r = f s) = [s]
  | [], _, s, hs => by simp at hs
  | a :: rest, h, s, hs => by
    simp only [List.map_cons, List.nodup_cons] at h
    rcases List.mem_cons.1 hs with rfl | hsr
    · have hrest : rest.filter (fun r => f r = f s) = [] := by
        rw [List.filter_eq_nil_iff]
        intro x hx
        simp only [decide_eq_true_eq]
        intro hxs
        exact h.1 (List.mem_map.2 ⟨x, hx, hxs⟩)
      simp [List.filter_cons, hrest]
    · have hne : ¬(f a = f s) := by
        intro hfa
        exact h.1 (hfa ▸ List.mem_map.2 ⟨s, hsr, rfl⟩)
      simp only [List.filter_cons, hne, decide_eq_true_eq, if_false]
      simpa [hne] using filter_key_eq_of_nodup_keys f rest h.2 s hsr

/-- C9 counterexample: a table with two rows, distinct `(site, date)`
keys but not in ascending key order; the aggregation re-sorts the rows,
so the table is not reproduced unchanged. -/
theorem c9_counterexample :
    ([((1 : ℕ), (0 : ℕ), (5 : ℚ)), ((0 : ℕ), 0, 7)].Pairwise
        (fun a b => rowKey a ≠ rowKey b)) ∧
    aggDaily [((1 : ℕ), (0 : ℕ), (5 : ℚ)), ((0 : ℕ), 0, 7)]
      ≠ [((1 : ℕ), (0 : ℕ), (5 : ℚ)), ((0 : ℕ), 0, 7)] := by
  constructor <;> decide

/-- C9, as amended: the per-`(site, date)` mean aggregation reproduces a
table unchanged provided the table has one row per key *and is sorted in
ascending key order* (as every output of the aggregator itself is);
otherwise the rows come back key-sorted. -/
theorem c9_amended_agg_idempotent {σ : Type} [LinearOrder σ] (t : List (σ × ℕ × ℚ))
    (hsorted : t.Pairwise (fun a b => a.1 < b.1 ∨ (a.1 = b.1 ∧ a.2.1 < b.2.1))) :
    aggDaily t = t := by
  have hkeys_nodup : ((t.map rowKey).Nodup) := by
    rw [List.Nodup, List.pairwise_map]
    refine hsorted.imp ?_
    rintro a b (h | ⟨h, hd⟩) hk
    · exact absurd (congrArg Prod.fst hk) (ne_of_lt h)
    · exact absurd (congrArg Prod.snd hk) (ne_of_lt hd)
  have h1 : (t.map rowKey).dedup = t.map rowKey := List.dedup_eq_self.2 hkeys_nodup
  have hsortkeys : List.Sorted keyLe (t.map rowKey) := by
    rw [List.Sorted, List.pairwise_map]
    refine hsorted.imp ?_
    rintro a b (h | ⟨h, hd⟩)
    · exact Or.inl h
    · exact Or.inr ⟨h, le_of_lt hd⟩
  have h2 : List.insertionSort keyLe (t.map rowKey) = t.map rowKey :=
    List.eq_of_perm_of_sorted (List.perm_insertionSort keyLe (t.map rowKey))
      (List.sorted_insertionSort keyLe (t.map rowKey)) hsortkeys
  unfold aggDaily
  rw [h1, h2, List.map_map]
  have : ∀ s ∈ t, ((fun k => (k.1, k.2,
      (List.map (fun r => r.2.2) (t.filter (fun r => rowKey r = k))).sum /
        ((List.map (fun r => r.2.2) (t.filter (fun r => rowKey r = k))).length : ℚ)))
      ∘ rowKey) s = id s := by
    intro s hs
    have hf := filter_key_eq_of_nodup_keys rowKey t hkeys_nodup s hs
    simp only [Function.comp_apply, hf, List.map_cons, List.map_nil, List.sum_cons,
      List.sum_nil, List.length_cons, List.length_nil, id]
    norm_num
    rfl
  rw [List.map_congr_left this, List.map_id]

/-- Witness for the amended C9 at a concrete two-row key-sorted table. -/
theorem c9_amended_witness :
    ([((0 : ℕ), (1 : ℕ), (2 : ℚ)), ((1 : ℕ), 1, 3)].Pairwise
        (fun a b => a.1 < b.1 ∨ (a.1 = b.1 ∧ a.2.1 < b.2.1))) ∧
    aggDaily [((0 : ℕ), (1 : ℕ), (2 : ℚ)), ((1 : ℕ), 1, 3)]
      = [((0 : ℕ), (1 : ℕ), (2 : ℚ)), ((1 : ℕ), 1, 3)] :=
  ⟨by decide, c9_amended_agg_idempotent _ (by decide)⟩

/-- C10: the nearest-index plan and the loadable-variable set of the MERRA
extraction are computed from the first (sorted-order) file alone and
reused unchanged: rewriting the coordinate arrays of every later file (a
map `g` that preserves `vars` and `val`) leaves the whole extraction
unchanged, and a later file carrying none of the loadable variables
contributes nothing (it is silently skipped). -/
theorem c10_plan_from_first_file (first : MFile) (rest : List MFile)
    (var_names : List String) (sites : List (String × ℚ × ℚ)) (g : MFile → MFile)
    (hg : ∀ f, (g f).vars = f.vars ∧ (g f).val = f.val) :
    extractMerra (first :: rest.map g) var_names sites
      = extractMerra (first :: rest) var_names sites ∧
    ∀ (pre post : List MFile) (f : MFile),
      (∀ v ∈ merraAvail first var_names, v ∉ f.vars) →
      extractMerra (first :: (pre ++ f :: post)) var_names sites
        = extractMerra (first :: (pre ++ post)) var_names sites := by
  have hproc : ∀ (avail : List String) (sidx : List (String × ℕ × ℕ)) (f : MFile),
      merraProcessFile avail sidx (g f) = merraProcessFile avail sidx f := by
    intro avail sidx f
    unfold merraProcessFile
    rw [(hg f).1, (hg f).2]
  constructor
  · unfold extractMerra
    simp only [List.flatMap_cons, List.flatMap_map]
    have : (fun f => merraProcessFile (merraAvail first var_names)
        (merraSiteIdx first sites) (g f))
        = (fun f => merraProcessFile (merraAvail first var_names)
        (merraSiteIdx first sites) f) := funext (hproc _ _)
    rw [this]
  · intro pre post f hf
    have hskip : merraProcessFile (merraAvail first var_names)
        (merraSiteIdx first sites) f = [] := by
      unfold merraProcessFile
      have : (merraAvail first var_names).filter (fun v => v ∈ f.vars) = [] := by
        rw [List.filter_eq_nil_iff]
        intro v hv
        simp only [decide_eq_true_eq]
        exact hf v hv
      rw [this]
      simp
    unfold extractMerra
    simp only [List.flatMap_cons, List.flatMap_append, hskip, List.nil_append,
      List.append_nil]

/-- Witness for C10: a concrete two-file folder whose second file carries
no loadable variable; changing the later file's coordinates does not
change the extraction, and dropping the empty file does not either. -/
theorem c10_witness :
    (∀ f : MFile, ((fun f : MFile => MFile.mk [1] f.lon f.vars f.val) f).vars = f.vars ∧
      ((fun f : MFile => MFile.mk [1] f.lon f.vars f.val) f).val = f.val) ∧
    extractMerra
        (MFile.mk [0] [0] ["T2M"] (fun _ _ _ => 0) ::
          [MFile.mk [0] [0] [] (fun _ _ _ => 0)].map
            (fun f : MFile => MFile.mk [1] f.lon f.vars f.val))
        ["T2M"] [("S", 0, 0)]
      = extractMerra
          (MFile.mk [0] [0] ["T2M"] (fun _ _ _ => 0) ::
            [MFile.mk [0] [0] [] (fun _ _ _ => 0)])
          ["T2M"] [("S", 0, 0)] ∧
    extractMerra
        (MFile.mk [0] [0] ["T2M"] (fun _ _ _ => 0) ::
          ([] ++ MFile.mk [0] [0] [] (fun _ _ _ => 0) :: []))
        ["T2M"] [("S", 0, 0)]
      = extractMerra
          (MFile.mk [0] [0] ["T2M"] (fun _ _ _ => 0) :: ([] ++ []))
          ["T2M"] [("S", 0, 0)] :=
  ⟨fun f => ⟨rfl, rfl⟩,
   (c10_plan_from_first_file (MFile.mk [0] [0] ["T2M"] (fun _ _ _ => 0))
      [MFile.mk [0] [0] [] (fun _ _ _ => 0)] ["T2M"] [("S", 0, 0)]
      (fun f => MFile.mk [1] f.lon f.vars f.val) (fun f => ⟨rfl, rfl⟩)).1,
   (c10_plan_from_first_file (MFile.mk [0] [0] ["T2M"] (fun _ _ _ => 0))
      [MFile.mk [0] [0] [] (fun _ _ _ => 0)] ["T2M"] [("S", 0, 0)]
      (fun f => MFile.mk [1] f.lon f.vars f.val) (fun f => ⟨rfl, rfl⟩)).2
     [] [] (MFile.mk [0] [0] [] (fun _ _ _ => 0)) (by decide)⟩

theorem scanChildren_fst (hints subs : List String) (p : String) :
    ∀ cs : List (String × HNode),
      (scanChildren hints subs p cs).1
        = (((childLeaves p cs).filter
            (fun kp => nameMatches hints subs kp.1)).head?).map Prod.snd
  | [] => by simp [scanChildren, childLeaves]
  | (k, HNode.ds) :: cs => by
    simp only [scanChildren, childLeaves, List.filter_cons]
    by_cases hm : nameMatches hints subs k
    · simp [hm]
    · simp only [hm, if_false, Bool.false_eq_true]
      exact scanChildren_fst hints subs p cs
  | (k, HNode.grp ch) :: cs => by
    simp only [scanChildren, childLeaves]
    exact scanChildren_fst hints subs p cs

theorem scanChildren_snd_of_none (hints subs : List String) (p : String) :
    ∀ cs : List (String × HNode),
      (scanChildren hints subs p cs).1 = none →
      (scanChildren hints subs p cs).2 = (childGroups p cs).reverse
  | [] => by simp [scanChildren, childGroups]
  | (k, HNode.ds) :: cs => by
    simp only [scanChildren, childGroups]
    by_cases hm : nameMatches hints subs k
    · simp [hm]
    · simp only [hm, if_false, Bool.false_eq_true]
      exact scanChildren_snd_of_none hints subs p cs
  | (k, HNode.grp ch) :: cs => by
    simp only [scanChildren, childGroups, List.reverse_cons]
    intro hnone
    rw [scanChildren_snd_of_none hints subs p cs hnone]

theorem findLoop_eq_stackOrder (hints subs : List String) :
    ∀ st : List (String × HNode),
      findLoop hints subs st
        = (((stackOrder st).filter
            (fun kp => nameMatches hints subs kp.1)).head?).map Prod.snd := by
  intro st
  induction st using findLoop.induct hints subs with
  | case1 => simp [findLoop, stackOrder]
  | case2 p rest ih =>
    rw [findLoop, stackOrder]
    exact ih
  | case3 p cs rest out rs h =>
    rw [findLoop, stackOrder]
    rw [h]
    have hfst := scanChildren_fst hints subs p cs
    rw [h] at hfst
    simp only [List.filter_append, List.head?_append]
    cases hhd : ((childLeaves p cs).filter
        (fun kp => nameMatches hints subs kp.1)).head? with
    | none =>
      rw [hhd] at hfst
      exact absurd hfst (by simp)
    | some kp =>
      rw [hhd] at hfst
      simpa using hfst
  | case4 p cs rest pushed h ih =>
    rw [findLoop, stackOrder]
    rw [h]
    have hfst := scanChildren_fst hints subs p cs
    rw [h] at hfst
    have hleaves : ((childLeaves p cs).filter
        (fun kp => nameMatches hints subs kp.1)) = [] := by
      rw [← List.head?_eq_none_iff]
      exact (Option.map_eq_none').1 hfst.symm
    have hpushed : pushed = (childGroups p cs).reverse := by
      have hsnd := scanChildren_snd_of_none hints subs p cs (by rw [h])
      rw [h] at hsnd
      exact hsnd
    rw [List.filter_append, hleaves, List.nil_append, ← hpushed]
    exact ih

/-- C6: `_find_dataset` returns the path of the first leaf (dataset) node
of its depth-first traversal order whose name matches a hint
case-insensitively (exact hints) or whose lower-cased name contains a
substring hint; it returns `none` exactly when no leaf of the file
matches, the condition the caller surfaces as dataset-not-found. -/
theorem c6_find_dataset_first_match (root : HNode) (hints subs : List String) :
    find_dataset root hints subs
      = (((dfsOrder root).filter
          (fun kp => nameMatches hints subs kp.1)).head?).map Prod.snd ∧
    (find_dataset root hints subs = none ↔
      ∀ kp ∈ dfsOrder root, ¬ nameMatches hints subs kp.1 = true) := by
  have h := findLoop_eq_stackOrder hints subs [("/", root)]
  unfold find_dataset dfsOrder
  refine ⟨h, ?_⟩
  rw [h, Option.map_eq_none', List.head?_eq_none_iff, List.filter_eq_nil_iff]

theorem list_exists_min {α : Type} [LinearOrder α] :
    ∀ l : List α, l ≠ [] → ∃ x ∈ l, ∀ y ∈ l, x ≤ y
  | [], h => absurd rfl h
  | [x], _ => ⟨x, List.mem_singleton_self x, by
      intro y hy
      rw [List.mem_singleton.1 hy]⟩
  | x :: y :: l, _ => by
    obtain ⟨m, hm, hmin⟩ := list_exists_min (y :: l) (List.cons_ne_nil y l)
    rcases le_total x m with h | h
    · exact ⟨x, List.mem_cons_self x _, by
        intro z hz
        rcases List.mem_cons.1 hz with rfl | hz
        · exact le_refl z
        · exact h.trans (hmin z hz)⟩
    · exact ⟨m, List.mem_cons_of_mem x hm, by
        intro z hz
        rcases List.mem_cons.1 hz with rfl | hz
        · exact h
        · exact hmin z hz⟩

theorem findIdx_map_comp {α β : Type} (f : α → β) (p : β → Bool) :
    ∀ l : List α, (l.map f).findIdx p = l.findIdx (fun a => p (f a))
  | [] => rfl
  | x :: xs => by
    simp only [List.map_cons, List.findIdx_cons]
    cases p (f x) with
    | true => rfl
    | false => simp [findIdx_map_comp f p xs]

theorem findIdx_congr_of_mem {α : Type} {p q : α → Bool} :
    ∀ l : List α, (∀ a ∈ l, p a = q a) → l.findIdx p = l.findIdx q
  | [], _ => rfl
  | x :: xs, h => by
    simp only [List.findIdx_cons, h x (List.mem_cons_self x xs)]
    cases q x with
    | true => rfl
    | false =>
      simp [findIdx_congr_of_mem xs (fun a ha => h a (List.mem_cons_of_mem x ha))]

theorem find?_eq_getElem?_findIdx' {α : Type} (p : α → Bool) :
    ∀ l : List α, l.find? p = l[l.findIdx p]?
  | [] => rfl
  | x :: xs => by
    simp only [List.find?_cons, List.findIdx_cons]
    cases hp : p x with
    | true => simp
    | false => simp [find?_eq_getElem?_findIdx' p xs]

theorem pairs_eq_range_unravel :
    ∀ n0 n1 : ℕ,
      (List.range n0).flatMap (fun i => (List.range n1).map (fun j => (i, j)))
        = (List.range (n0 * n1)).map (fun k => (k / n1, k % n1)) := by
  intro n0 n1
  rcases Nat.eq_zero_or_pos n1 with rfl | hn1
  · simp [List.flatMap_eq_nil_iff]
  · induction n0 with
    | zero => simp
    | succ m ih =>
      rw [List.range_succ, List.flatMap_append, ih, Nat.succ_mul, List.range_add,
        List.map_append, List.map_map]
      congr 1
      simp only [List.flatMap_cons, List.flatMap_nil, List.append_nil]
      apply List.map_congr_left
      intro j hj
      have hjlt : j < n1 := List.mem_range.1 hj
      simp only [Function.comp_apply]
      congr 1
      · rw [Nat.mul_comm m n1, Nat.mul_add_div hn1, Nat.div_eq_of_lt hjlt,
          Nat.add_zero]
      · rw [Nat.mul_comm m n1, Nat.mul_add_mod, Nat.mod_eq_of_lt hjlt]

theorem haversine_lt_haversine {lat1 lon1 lat2 lon2 lat1' lon1' lat2' lon2' : ℝ}
    (h0 : 0 ≤ havA lat1 lon1 lat2 lon2)
    (hlt : havA lat1 lon1 lat2 lon2 < havA lat1' lon1' lat2' lon2')
    (h1 : havA lat1' lon1' lat2' lon2' ≤ 1) :
    haversine lat1 lon1 lat2 lon2 < haversine lat1' lon1' lat2' lon2' := by
  unfold haversine
  have hsq : Real.sqrt (havA lat1 lon1 lat2 lon2)
      < Real.sqrt (havA lat1' lon1' lat2' lon2') := Real.sqrt_lt_sqrt h0 hlt
  have harc : Real.arcsin (Real.sqrt (havA lat1 lon1 lat2 lon2))
      < Real.arcsin (Real.sqrt (havA lat1' lon1' lat2' lon2')) := by
    apply Real.strictMonoOn_arcsin
    · constructor
      · linarith [Real.sqrt_nonneg (havA lat1 lon1 lat2 lon2)]
      · exact le_of_lt (lt_of_lt_of_le hsq (Real.sqrt_le_one.mpr h1))
    · constructor
      · linarith [Real.sqrt_nonneg (havA lat1' lon1' lat2' lon2')]
      · exact Real.sqrt_le_one.mpr h1
    · exact hsq
  linarith

theorem idxmin_quad_third {a b c d : ℝ} (hca : c < a) (hcb : c < b) (hcd : c ≤ d) :
    idxmin [a, b, c, d] = 2 := by
  unfold idxmin
  have pa : decide (∀ y ∈ [a, b, c, d], a ≤ y) = false := by
    apply decide_eq_false
    intro hall
    exact absurd (hall c (by simp)) (not_le.2 hca)
  have pb : decide (∀ y ∈ [a, b, c, d], b ≤ y) = false := by
    apply decide_eq_false
    intro hall
    exact absurd (hall c (by simp)) (not_le.2 hcb)
  have pc : decide (∀ y ∈ [a, b, c, d], c ≤ y) = true := by
    apply decide_eq_true
    intro y hy
    rcases List.mem_cons.1 hy with rfl | hy
    · exact le_of_lt hca
    rcases List.mem_cons.1 hy with rfl | hy
    · exact le_of_lt hcb
    rcases List.mem_cons.1 hy with rfl | hy
    · exact le_refl _
    rcases List.mem_cons.1 hy with rfl | hy
    · exact hcd
    · simp at hy
  rw [List.findIdx_cons, pa, List.findIdx_cons, pb, List.findIdx_cons, pc]
  rfl

theorem idxmin_quad_last {a b c d : ℝ} (hda : d < a) (hdb : d < b) (hdc : d < c) :
    idxmin [a, b, c, d] = 3 := by
  unfold idxmin
  have pa : decide (∀ y ∈ [a, b, c, d], a ≤ y) = false := by
    apply decide_eq_false
    intro hall
    exact absurd (hall d (by simp)) (not_le.2 hda)
  have pb : decide (∀ y ∈ [a, b, c, d], b ≤ y) = false := by
    apply decide_eq_false
    intro hall
    exact absurd (hall d (by simp)) (not_le.2 hdb)
  have pc : decide (∀ y ∈ [a, b, c, d], c ≤ y) = false := by
    apply decide_eq_false
    intro hall
    exact absurd (hall d (by simp)) (not_le.2 hdc)
  have pd : decide (∀ y ∈ [a, b, c, d], d ≤ y) = true := by
    apply decide_eq_true
    intro y hy
    rcases List.mem_cons.1 hy with rfl | hy
    · exact le_of_lt hda
    rcases List.mem_cons.1 hy with rfl | hy
    · exact le_of_lt hdb
    rcases List.mem_cons.1 hy with rfl | hy
    · exact le_of_lt hdc
    rcases List.mem_cons.1 hy with rfl | hy
    · exact le_refl _
    · simp at hy
  rw [List.findIdx_cons, pa, List.findIdx_cons, pb, List.findIdx_cons, pc,
    List.findIdx_cons, pd]
  rfl

theorem idxmin_pair_left {x y : ℝ} (h : x ≤ y) : idxmin [x, y] = 0 := by
  unfold idxmin
  have px : decide (∀ z ∈ [x, y], x ≤ z) = true := by
    apply decide_eq_true
    intro z hz
    rcases List.mem_cons.1 hz with rfl | hz
    · exact le_refl _
    rcases List.mem_cons.1 hz with rfl | hz
    · exact h
    · simp at hz
  rw [List.findIdx_cons, px]
  rfl

theorem idxmin_pair_right {x y : ℝ} (h : y < x) : idxmin [x, y] = 1 := by
  unfold idxmin
  have px : decide (∀ z ∈ [x, y], x ≤ z) = false := by
    apply decide_eq_false
    intro hall
    exact absurd (hall y (by simp)) (not_le.2 h)
  have py : decide (∀ z ∈ [x, y], y ≤ z) = true := by
    apply decide_eq_true
    intro z hz
    rcases List.mem_cons.1 hz with rfl | hz
    · exact le_of_lt h
    rcases List.mem_cons.1 hz with rfl | hz
    · exact le_refl _
    · simp at hz
  rw [List.findIdx_cons, px, List.findIdx_cons, py]
  rfl

theorem argmin_scan_generic {i : Type} (f : ℕ → i) (v : i → ℝ) (n : ℕ) (hn : 0 < n)
    (z : i) :
    ((List.range n |>.map f).find?
        (fun a => decide (∀ j ∈ (List.range n).map f, v a ≤ v j))).getD z
      = f (idxmin ((List.range n).map (fun k => v (f k)))) := by
  have hq : ∀ a : ℕ,
      (decide (∀ y ∈ (List.range n).map (fun k => v (f k)), v (f a) ≤ y))
        = (decide (∀ j ∈ (List.range n).map f, v (f a) ≤ v j)) := by
    intro a
    rw [decide_eq_decide]
    simp only [List.forall_mem_map]
  have hfind : idxmin ((List.range n).map (fun k => v (f k)))
      = (List.range n).findIdx
          (fun a => decide (∀ j ∈ (List.range n).map f, v (f a) ≤ v j)) := by
    unfold idxmin
    rw [findIdx_map_comp]
    exact findIdx_congr_of_mem _ (fun a _ => hq a)
  obtain ⟨x, hxmem, hxmin⟩ := list_exists_min
      ((List.range n).map (fun k => v (f k))) (by
        simp only [ne_eq, List.map_eq_nil_iff, List.range_eq_nil]
        omega)
  obtain ⟨k0, hk0, hk0x⟩ := List.mem_map.1 hxmem
  have hq0 : (fun a => decide (∀ j ∈ (List.range n).map f, v (f a) ≤ v j)) k0
      = true := by
    apply decide_eq_true
    intro j hj
    obtain ⟨k2, hk2, rfl⟩ := List.mem_map.1 hj
    rw [show v (f k0) = x from hk0x]
    exact hxmin _ (List.mem_map_of_mem _ hk2)
  have hlt : (List.range n).findIdx
      (fun a => decide (∀ j ∈ (List.range n).map f, v (f a) ≤ v j))
      < (List.range n).length := List.findIdx_lt_length_of_exists ⟨k0, hk0, hq0⟩
  have hpc : ((fun a => decide (∀ j ∈ (List.range n).map f, v a ≤ v j)) ∘ f)
      = (fun a => decide (∀ j ∈ (List.range n).map f, v (f a) ≤ v j)) := rfl
  rw [List.find?_map, hpc, find?_eq_getElem?_findIdx',
    List.getElem?_eq_getElem hlt, List.getElem_range, hfind]
  simp only [Option.map_some', Option.getD_some]

set_option maxHeartbeats 1000000 in
/-- C1, as amended: the haversine-grid resolver of `extract_aod.py`
(argmin over the flattened haversine distances, unravelled to a 2-D
index) returns, for every nonempty 1-D lat/lon grid, exactly the index of
the brute-force row-major linear scan minimizing the haversine distance
over every cell.  The per-axis `_nearest_index` resolver of
`extract_merra.py` is *not* equivalent to this scan (see the
counterexample). -/
theorem c1_amended_resolver_eq_bruteforce (slat slon : ℝ) (lat lon : List ℝ)
    (hlat : lat ≠ []) (hlon : lon ≠ []) :
    nearestIndex2D slat slon lat lon = bruteForceIndex slat slon lat lon := by
  have hn0 : 0 < lat.length := List.length_pos.2 hlat
  have hn1 : 0 < lon.length := List.length_pos.2 hlon
  have key := argmin_scan_generic
      (fun k => (k / lon.length, k % lon.length))
      (fun ij : ℕ × ℕ => haversine slat slon (lat.getD ij.1 0) (lon.getD ij.2 0))
      (lat.length * lon.length) (Nat.mul_pos hn0 hn1) (0, 0)
  unfold nearestIndex2D distFlat bruteForceIndex
  rw [pairs_eq_range_unravel]
  exact key.symm

theorem sin_deg_nonneg {x : ℝ} (h0 : 0 ≤ x) (h1 : x ≤ 180) :
    0 ≤ Real.sin (x * Real.pi / 180) := by
  apply Real.sin_nonneg_of_nonneg_of_le_pi
  · positivity
  · nlinarith [Real.pi_pos]

theorem sin_deg_le_rad {x : ℝ} (h0 : 0 ≤ x) :
    Real.sin (x * Real.pi / 180) ≤ x * Real.pi / 180 := by
  rcases eq_or_lt_of_le h0 with h | h
  · rw [← h]
    simp
  · exact le_of_lt (Real.sin_lt (by positivity))

theorem sin_deg_lt_sin_deg {x y : ℝ} (h0 : 0 ≤ x) (hxy : x < y) (hy : y ≤ 90) :
    Real.sin (x * Real.pi / 180) < Real.sin (y * Real.pi / 180) := by
  apply Real.sin_lt_sin_of_lt_of_le_pi_div_two
  · nlinarith [Real.pi_pos]
  · nlinarith [Real.pi_pos]
  · nlinarith [Real.pi_pos]

theorem cos_deg_le_cos_deg {x y : ℝ} (h0 : 0 ≤ x) (hxy : x ≤ y) (hy : y ≤ 180) :
    Real.cos (y * Real.pi / 180) ≤ Real.cos (x * Real.pi / 180) := by
  apply Real.cos_le_cos_of_nonneg_of_le_pi
  · positivity
  · nlinarith [Real.pi_pos]
  · nlinarith [Real.pi_pos]

theorem cos_deg_pos {x : ℝ} (h0 : 0 ≤ x) (h1 : x < 90) :
    0 < Real.cos (x * Real.pi / 180) := by
  apply Real.cos_pos_of_mem_Ioo
  constructor
  · nlinarith [Real.pi_pos]
  · nlinarith [Real.pi_pos]

theorem cos_deg_le_one (x : ℝ) : Real.cos (x * Real.pi / 180) ≤ 1 :=
  Real.cos_le_one _

set_option maxHeartbeats 3200000 in
/-- C1 counterexample: on the grid `lat = [0, 90]`, `lon = [0, 180]` with
the site at `(40, 100)`, the per-axis resolver picks `(0, 1)` (latitude 0
is 40 < 50 degrees away, longitude 180 is 80 < 100 away), while the
brute-force haversine scan picks the near-pole cell `(1, 0)`: at latitude
90 a longitude mismatch costs nothing, so the pole cell is closest. -/
theorem c1_counterexample :
    (nearest_index [(0 : ℝ), 90] 40, nearest_index [(0 : ℝ), 180] 100) = (0, 1) ∧
    nearestIndex2D 40 100 [(0 : ℝ), 90] [(0 : ℝ), 180] = (1, 0) := by
  constructor
  · have e1 : |(0 : ℝ) - 40| = 40 := by
      rw [show (0 : ℝ) - 40 = -(40 : ℝ) by ring, abs_neg,
        abs_of_nonneg (by norm_num : (0 : ℝ) ≤ 40)]
    have e2 : |(90 : ℝ) - 40| = 50 := by
      rw [show (90 : ℝ) - 40 = (50 : ℝ) by ring,
        abs_of_nonneg (by norm_num : (0 : ℝ) ≤ 50)]
    have e3 : |(0 : ℝ) - 100| = 100 := by
      rw [show (0 : ℝ) - 100 = -(100 : ℝ) by ring, abs_neg,
        abs_of_nonneg (by norm_num : (0 : ℝ) ≤ 100)]
    have e4 : |(180 : ℝ) - 100| = 80 := by
      rw [show (180 : ℝ) - 100 = (80 : ℝ) by ring,
        abs_of_nonneg (by norm_num : (0 : ℝ) ≤ 80)]
    unfold nearest_index
    simp only [List.map_cons, List.map_nil, e1, e2, e3, e4]
    rw [idxmin_pair_left (by norm_num : (40 : ℝ) ≤ 50),
      idxmin_pair_right (by norm_num : (80 : ℝ) < 100)]
  · have hpi1 : (3.14 : ℝ) < Real.pi := Real.pi_gt_d2
    have hpi2 : Real.pi < 3.15 := Real.pi_lt_d2
    have ea0 : havA 40 100 0 0
        = Real.sin (20 * Real.pi / 180) ^ 2 +
          Real.cos (40 * Real.pi / 180) * Real.sin (50 * Real.pi / 180) ^ 2 := by
      unfold havA radians
      rw [show ((0 : ℝ) - 40) * Real.pi / 180 / 2 = -(20 * Real.pi / 180) by ring,
        show ((0 : ℝ) - 100) * Real.pi / 180 / 2 = -(50 * Real.pi / 180) by ring,
        show (0 : ℝ) * Real.pi / 180 = 0 by ring,
        Real.sin_neg, neg_sq, Real.cos_zero, mul_one, Real.sin_neg, neg_sq]
    have ea1 : havA 40 100 0 180
        = Real.sin (20 * Real.pi / 180) ^ 2 +
          Real.cos (40 * Real.pi / 180) * Real.sin (40 * Real.pi / 180) ^ 2 := by
      unfold havA radians
      rw [show ((0 : ℝ) - 40) * Real.pi / 180 / 2 = -(20 * Real.pi / 180) by ring,
        show ((180 : ℝ) - 100) * Real.pi / 180 / 2 = 40 * Real.pi / 180 by ring,
        show (0 : ℝ) * Real.pi / 180 = 0 by ring,
        Real.sin_neg, neg_sq, Real.cos_zero, mul_one]
    have ea2 : havA 40 100 90 0 = Real.sin (25 * Real.pi / 180) ^ 2 := by
      unfold havA radians
      rw [show ((90 : ℝ) - 40) * Real.pi / 180 / 2 = 25 * Real.pi / 180 by ring,
        show (90 : ℝ) * Real.pi / 180 = Real.pi / 2 by ring,
        Real.cos_pi_div_two, mul_zero, zero_mul, add_zero]
    have ea3 : havA 40 100 90 180 = Real.sin (25 * Real.pi / 180) ^ 2 := by
      unfold havA radians
      rw [show ((90 : ℝ) - 40) * Real.pi / 180 / 2 = 25 * Real.pi / 180 by ring,
        show (90 : ℝ) * Real.pi / 180 = Real.pi / 2 by ring,
        Real.cos_pi_div_two, mul_zero, zero_mul, add_zero]
    -- numeric bounds
    have hs25nn : 0 ≤ Real.sin (25 * Real.pi / 180) :=
      sin_deg_nonneg (by norm_num) (by norm_num)
    have hs25ub : Real.sin (25 * Real.pi / 180) ≤ 0.4375 :=
      le_trans (sin_deg_le_rad (by norm_num)) (by nlinarith)
    have hs25sq : Real.sin (25 * Real.pi / 180) ^ 2 ≤ 0.1915 := by nlinarith
    have h40pos : (0 : ℝ) < 40 * Real.pi / 180 := by positivity
    have h40ub : 40 * Real.pi / 180 ≤ 0.7 := by nlinarith
    have h40lb : (0.6977 : ℝ) ≤ 40 * Real.pi / 180 := by nlinarith
    have h40cube : (40 * Real.pi / 180) ^ 3 ≤ 0.343 := by
      have h := pow_le_pow_left₀ (le_of_lt h40pos) h40ub 3
      nlinarith [h]
    have hsin40 : (0.6119 : ℝ) ≤ Real.sin (40 * Real.pi / 180) := by
      have h := Real.sin_gt_sub_cube h40pos (by nlinarith : 40 * Real.pi / 180 ≤ 1)
      nlinarith
    have hsin40nn : 0 ≤ Real.sin (40 * Real.pi / 180) :=
      sin_deg_nonneg (by norm_num) (by norm_num)
    have hcos40 : (0.755 : ℝ) ≤ Real.cos (40 * Real.pi / 180) := by
      have h := Real.one_sub_sq_div_two_le_cos (x := 40 * Real.pi / 180)
      nlinarith
    have hcos40le1 : Real.cos (40 * Real.pi / 180) ≤ 1 := cos_deg_le_one 40
    have hcos40nn : 0 ≤ Real.cos (40 * Real.pi / 180) := by nlinarith
    have hprod : (0.28 : ℝ) ≤ Real.cos (40 * Real.pi / 180) *
        Real.sin (40 * Real.pi / 180) ^ 2 := by nlinarith
    have hsin50ge : Real.sin (40 * Real.pi / 180) ≤ Real.sin (50 * Real.pi / 180) :=
      le_of_lt (sin_deg_lt_sin_deg (by norm_num) (by norm_num) (by norm_num))
    have hsin50nn : 0 ≤ Real.sin (50 * Real.pi / 180) :=
      sin_deg_nonneg (by norm_num) (by norm_num)
    have hs20nn : 0 ≤ Real.sin (20 * Real.pi / 180) :=
      sin_deg_nonneg (by norm_num) (by norm_num)
    have hs20ub : Real.sin (20 * Real.pi / 180) ≤ 0.35 :=
      le_trans (sin_deg_le_rad (by norm_num)) (by nlinarith)
    have hs50ub : Real.sin (50 * Real.pi / 180) ≤ 0.875 :=
      le_trans (sin_deg_le_rad (by norm_num)) (by nlinarith)
    -- a-level comparisons
    have hA21 : havA 40 100 90 0 < havA 40 100 0 180 := by
      rw [ea2, ea1]
      nlinarith
    have hA20 : havA 40 100 90 0 < havA 40 100 0 0 := by
      rw [ea2, ea0]
      nlinarith
    have hA1le : havA 40 100 0 180 ≤ 1 := by
      rw [ea1]
      nlinarith
    have hA0le : havA 40 100 0 0 ≤ 1 := by
      rw [ea0]
      nlinarith
    have hA2nn : 0 ≤ havA 40 100 90 0 := by
      rw [ea2]
      positivity
    -- distance-level comparisons
    have hd20 : haversine 40 100 90 0 < haversine 40 100 0 0 :=
      haversine_lt_haversine hA2nn hA20 hA0le
    have hd21 : haversine 40 100 90 0 < haversine 40 100 0 180 :=
      haversine_lt_haversine hA2nn hA21 hA1le
    have hd23 : haversine 40 100 90 0 ≤ haversine 40 100 90 180 := by
      unfold haversine
      rw [show havA 40 100 90 0 = havA 40 100 90 180 by rw [ea2, ea3]]
    have hD : distFlat 40 100 [(0 : ℝ), 90] [(0 : ℝ), 180]
        = [haversine 40 100 0 0, haversine 40 100 0 180,
           haversine 40 100 90 0, haversine 40 100 90 180] := rfl
    unfold nearestIndex2D
    rw [hD, idxmin_quad_third hd20 hd21 hd23]
    rfl

/-- Witness for the amended C1 on a concrete nonempty grid. -/
theorem c1_amended_witness :
    (([(0 : ℝ)] : List ℝ) ≠ [] ∧ ([(0 : ℝ)] : List ℝ) ≠ []) ∧
    nearestIndex2D 0 0 [(0 : ℝ)] [(0 : ℝ)] = bruteForceIndex 0 0 [(0 : ℝ)] [(0 : ℝ)] :=
  ⟨⟨List.cons_ne_nil 0 [], List.cons_ne_nil 0 []⟩,
   c1_amended_resolver_eq_bruteforce 0 0 [(0 : ℝ)] [(0 : ℝ)]
     (List.cons_ne_nil 0 []) (List.cons_ne_nil 0 [])⟩

set_option maxHeartbeats 3200000 in
/-- C8: on the grid `lat = [10, 20]`, `lon = [100, 110]` (meshgrid with
row = lat-axis, col = lon-axis), the site `(19, 109)` resolves to the
nearest index `(1, 1)`, and a variable array of shape `(2, 2)` is read at
position `[1][1]`. -/
theorem c8_concrete_scenario :
    nearestIndex2D 19 109 [(10 : ℝ), 20] [(100 : ℝ), 110] = (1, 1) ∧
    ∀ v00 v01 v10 v11 : ℝ,
      extractVal (2, 2) 1 1 ⟨[2, 2], [v00, v01, v10, v11]⟩ = some v11 := by
  constructor
  · have hpi1 : (3.14 : ℝ) < Real.pi := Real.pi_gt_d2
    have hpi2 : Real.pi < 3.15 := Real.pi_lt_d2
    have ea00 : havA 19 109 10 100
        = Real.sin (4.5 * Real.pi / 180) ^ 2 +
          Real.cos (19 * Real.pi / 180) * Real.cos (10 * Real.pi / 180) *
            Real.sin (4.5 * Real.pi / 180) ^ 2 := by
      unfold havA radians
      rw [show ((10 : ℝ) - 19) * Real.pi / 180 / 2 = -(4.5 * Real.pi / 180) by ring,
        show ((100 : ℝ) - 109) * Real.pi / 180 / 2 = -(4.5 * Real.pi / 180) by ring,
        Real.sin_neg, neg_sq]
    have ea01 : havA 19 109 10 110
        = Real.sin (4.5 * Real.pi / 180) ^ 2 +
          Real.cos (19 * Real.pi / 180) * Real.cos (10 * Real.pi / 180) *
            Real.sin (0.5 * Real.pi / 180) ^ 2 := by
      unfold havA radians
      rw [show ((10 : ℝ) - 19) * Real.pi / 180 / 2 = -(4.5 * Real.pi / 180) by ring,
        show ((110 : ℝ) - 109) * Real.pi / 180 / 2 = 0.5 * Real.pi / 180 by ring,
        Real.sin_neg, neg_sq]
    have ea10 : havA 19 109 20 100
        = Real.sin (0.5 * Real.pi / 180) ^ 2 +
          Real.cos (19 * Real.pi / 180) * Real.cos (20 * Real.pi / 180) *
            Real.sin (4.5 * Real.pi / 180) ^ 2 := by
      unfold havA radians
      rw [show ((20 : ℝ) - 19) * Real.pi / 180 / 2 = 0.5 * Real.pi / 180 by ring,
        show ((100 : ℝ) - 109) * Real.pi / 180 / 2 = -(4.5 * Real.pi / 180) by ring,
        Real.sin_neg, neg_sq]
    have ea11 : havA 19 109 20 110
        = Real.sin (0.5 * Real.pi / 180) ^ 2 +
          Real.cos (19 * Real.pi / 180) * Real.cos (20 * Real.pi / 180) *
            Real.sin (0.5 * Real.pi / 180) ^ 2 := by
      unfold havA radians
      rw [show ((20 : ℝ) - 19) * Real.pi / 180 / 2 = 0.5 * Real.pi / 180 by ring,
        show ((110 : ℝ) - 109) * Real.pi / 180 / 2 = 0.5 * Real.pi / 180 by ring]
    have hs05nn : 0 ≤ Real.sin (0.5 * Real.pi / 180) :=
      sin_deg_nonneg (by norm_num) (by norm_num)
    have hs45nn : 0 ≤ Real.sin (4.5 * Real.pi / 180) :=
      sin_deg_nonneg (by norm_num) (by norm_num)
    have hslt : Real.sin (0.5 * Real.pi / 180) < Real.sin (4.5 * Real.pi / 180) :=
      sin_deg_lt_sin_deg (by norm_num) (by norm_num) (by norm_num)
    have hssq : Real.sin (0.5 * Real.pi / 180) ^ 2
        < Real.sin (4.5 * Real.pi / 180) ^ 2 :=
      pow_lt_pow_left₀ hslt hs05nn (by norm_num)
    have hs45ub : Real.sin (4.5 * Real.pi / 180) ≤ 0.07875 :=
      le_trans (sin_deg_le_rad (by norm_num)) (by nlinarith)
    have hs45sq : Real.sin (4.5 * Real.pi / 180) ^ 2 ≤ 0.0063 := by nlinarith
    have hc19pos : 0 < Real.cos (19 * Real.pi / 180) :=
      cos_deg_pos (by norm_num) (by norm_num)
    have hc20pos : 0 < Real.cos (20 * Real.pi / 180) :=
      cos_deg_pos (by norm_num) (by norm_num)
    have hc10pos : 0 < Real.cos (10 * Real.pi / 180) :=
      cos_deg_pos (by norm_num) (by norm_num)
    have hc2010 : Real.cos (20 * Real.pi / 180) ≤ Real.cos (10 * Real.pi / 180) :=
      cos_deg_le_cos_deg (by norm_num) (by norm_num) (by norm_num)
    have hc19le1 : Real.cos (19 * Real.pi / 180) ≤ 1 := cos_deg_le_one 19
    have hc10le1 : Real.cos (10 * Real.pi / 180) ≤ 1 := cos_deg_le_one 10
    have hc20le1 : Real.cos (20 * Real.pi / 180) ≤ 1 := cos_deg_le_one 20
    have hcc10 : Real.cos (19 * Real.pi / 180) * Real.cos (10 * Real.pi / 180) ≤ 1 := by
      nlinarith
    have hcc20 : Real.cos (19 * Real.pi / 180) * Real.cos (20 * Real.pi / 180) ≤ 1 := by
      nlinarith
    have hcc20pos : 0 < Real.cos (19 * Real.pi / 180) * Real.cos (20 * Real.pi / 180) :=
      mul_pos hc19pos hc20pos
    have hcc10pos : 0 < Real.cos (19 * Real.pi / 180) * Real.cos (10 * Real.pi / 180) :=
      mul_pos hc19pos hc10pos
    have hccle : Real.cos (19 * Real.pi / 180) * Real.cos (20 * Real.pi / 180)
        ≤ Real.cos (19 * Real.pi / 180) * Real.cos (10 * Real.pi / 180) := by
      nlinarith
    have hA1110 : havA 19 109 20 110 < havA 19 109 20 100 := by
      rw [ea11, ea10]
      nlinarith
    have hA1101 : havA 19 109 20 110 < havA 19 109 10 110 := by
      rw [ea11, ea01]
      nlinarith [sq_nonneg (Real.sin (0.5 * Real.pi / 180))]
    have hA1100 : havA 19 109 20 110 < havA 19 109 10 100 := by
      rw [ea11, ea00]
      nlinarith [sq_nonneg (Real.sin (0.5 * Real.pi / 180))]
    have hA00le : havA 19 109 10 100 ≤ 1 := by
      rw [ea00]
      nlinarith
    have hA01le : havA 19 109 10 110 ≤ 1 := by
      rw [ea01]
      nlinarith
    have hA10le : havA 19 109 20 100 ≤ 1 := by
      rw [ea10]
      nlinarith
    have hA11nn : 0 ≤ havA 19 109 20 110 := by
      rw [ea11]
      nlinarith [sq_nonneg (Real.sin (0.5 * Real.pi / 180))]
    have hd00 : haversine 19 109 20 110 < haversine 19 109 10 100 :=
      haversine_lt_haversine hA11nn hA1100 hA00le
    have hd01 : haversine 19 109 20 110 < haversine 19 109 10 110 :=
      haversine_lt_haversine hA11nn hA1101 hA01le
    have hd10 : haversine 19 109 20 110 < haversine 19 109 20 100 :=
      haversine_lt_haversine hA11nn hA1110 hA10le
    have hD : distFlat 19 109 [(10 : ℝ), 20] [(100 : ℝ), 110]
        = [haversine 19 109 10 100, haversine 19 109 10 110,
           haversine 19 109 20 100, haversine 19 109 20 110] := rfl
    unfold nearestIndex2D
    rw [hD, idxmin_quad_last hd00 hd01 hd10]
    rfl
  · intro v00 v01 v10 v11
    rfl

end ISRO
